import Mathlib

/-!
Shallow embedding of the confmap crate (src/lib.rs): a process-wide JSON
configuration store.  JSON values mirror serde_json::Value, with numbers
carried as in serde_json::Number (unsigned 64-bit integer, negative 64-bit
integer, or finite double).  Finite IEEE doubles are embedded as rationals;
the integer-to-double conversion performed by Number::as_f64 is modelled by
round-to-nearest-even at 53 significant bits, which is the exact IEEE
semantics on the u64/i64 range (no overflow or subnormals can occur there).
The global mutable state (CONFIG_NAME, CONFIG_PATH, CONFIGS) is threaded
explicitly as a ConfState record, the filesystem and the executable
location as an FsEnv record, and serde_json object parsing as an explicit
parse argument.  A public read_config call that panics in Rust
(env::current_exe().expect / .parent().unwrap(), fs::read_dir(..).unwrap())
is modelled as returning none; a normal return is some of the updated
state.  The mutex around the shared map serialises access but carries no
other semantics in a sequential model, so it is dropped.
-/

namespace Confmap

/-- Payload of serde_json::Number: u64, negative i64, or finite f64. -/
inductive JNum where
  | posInt (n : Nat)
  | negInt (n : Int)
  | float (q : Rat)

/-- serde_json::Value.  Objects keep their fields as key/value lists. -/
inductive JValue where
  | null
  | bool (b : Bool)
  | num (n : JNum)
  | str (s : String)
  | arr (elems : List JValue)
  | obj (fields : List (String × JValue))

/-- The shared map type serde_json::Map<String, Value>, observed through
get and insert; modelled as a key-unique association list. -/
abbrev Table := List (String × JValue)

/-- Map::get. -/
def mapGet : Table → String → Option JValue
  | [], _ => none
  | kv :: rest, k => if kv.1 = k then some kv.2 else mapGet rest k

/-- Map::insert: replace the binding in place if the key is present,
otherwise add the pair. -/
def mapInsert : Table → String → JValue → Table
  | [], k, v => [(k, v)]
  | kv :: rest, k, v => if kv.1 = k then (k, v) :: rest else kv :: mapInsert rest k v

/-- Range invariants the serde_json parser guarantees for Number payloads:
a PosInt is a u64, a NegInt is a strictly negative i64. -/
def WFnum : JNum → Prop
  | JNum.posInt n => n < 2 ^ 64
  | JNum.negInt n => -(2 ^ 63) ≤ n ∧ n < 0
  | JNum.float _ => True

/-- Specification-side view: the mathematical integer a Number stores,
when it is integer-represented. -/
def JNum.intVal : JNum → Option Int
  | JNum.posInt n => some (n : Int)
  | JNum.negInt n => some n
  | JNum.float _ => none

/-- Number::as_i64: Some exactly for integer-represented numbers in i64
range (a u64 above i64::MAX is rejected); floats always give None. -/
def JNum.as_i64 : JNum → Option Int
  | JNum.posInt n => if n ≤ 2 ^ 63 - 1 then some (n : Int) else none
  | JNum.negInt n => some n
  | JNum.float _ => none

/-- Round-to-nearest-even of a natural number at 53 significant bits: the
exact value of (n as f64) for any n below 2 ^ 64. -/
def roundNatToF64 (n : Nat) : Nat :=
  if n < 2 ^ 53 then n
  else
    let k := Nat.log2 n + 1 - 53
    let q := n / 2 ^ k
    let r := n % 2 ^ k
    let half := 2 ^ (k - 1)
    let q2 := if half < r ∨ (r = half ∧ q % 2 = 1) then q + 1 else q
    q2 * 2 ^ k

/-- The conversion (i as f64) used by Number::as_f64 on integer payloads. -/
def intToF64 (n : Int) : Rat :=
  if n < 0 then -((roundNatToF64 n.natAbs : Nat) : Rat)
  else ((roundNatToF64 n.natAbs : Nat) : Rat)

/-- Number::as_f64: every payload converts; floats pass through exactly. -/
def JNum.as_f64 : JNum → Option Rat
  | JNum.posInt n => some (intToF64 (n : Int))
  | JNum.negInt n => some (intToF64 n)
  | JNum.float q => some q

/-- An f32 result: finite value, or an infinity produced by overflow in
the f64 → f32 conversion. -/
inductive F32 where
  | finite (q : Rat)
  | infinite (neg : Bool)

/-- Value::as_str (the source clones it into an owned String; Lean values
are immutable so cloning is the identity). -/
def JValue.as_str : JValue → Option String
  | JValue.str s => some s
  | _ => none

/-- Value::as_bool. -/
def JValue.as_bool : JValue → Option Bool
  | JValue.bool b => some b
  | _ => none

/-- Value::as_object (cloned). -/
def JValue.as_object : JValue → Option (List (String × JValue))
  | JValue.obj fields => some fields
  | _ => none

/-- Rust integer cast (x as iN) applied to an i64: two's-complement
truncation to w bits. -/
def wrapCast (w : Nat) (n : Int) : Int :=
  (n + 2 ^ (w - 1)) % 2 ^ w - 2 ^ (w - 1)

/-- Specification-side reinterpretation of a residue mod 2 ^ w as a
signed w-bit value. -/
def reinterpSigned (w : Nat) (m : Int) : Int :=
  if m < 2 ^ (w - 1) then m else m - 2 ^ w

/-- Specification-side: the string payload an array element contributes
to get_string_array, if any. -/
def strElem : JValue → Option String
  | JValue.str s => some s
  | _ => none

/-- Specification-side: the i64 an array element contributes to
get_int64_array, if any. -/
def elemToI64 : JValue → Option Int
  | JValue.num n => n.as_i64
  | _ => none

/-- The three process-wide globals of lib.rs. -/
structure ConfState where
  CONFIG_NAME : String
  CONFIG_PATH : String
  CONFIGS : Table

/-- Ambient filesystem and process facts that read_config consults.
files gives the contents of each readable regular file (a path that
exists as a regular file is identified with a readable one); exeParent is
the parent directory of env::current_exe (none when either the query or
taking the parent fails, which the Rust code turns into a panic);
readDir lists the filenames of the entries in a directory, none when
fs::read_dir fails (whose unwrap is also a panic).  Per-entry DirEntry
errors are folded into readDir failing. -/
structure FsEnv where
  files : String → Option String
  exeParent : Option String
  readDir : String → Option (List String)

/-- ConfigSerde::parse_value: clones the value. -/
def parse_value (value_ref : JValue) : JValue := value_ref

/-- ConfigSerde::read_config: read the file at config_path to a string,
parse it as a top-level JSON object (parse models serde_json::from_str
into Map<String, Value>, returning none on malformed JSON or a non-object
top level), then rebuild the map with parse_value applied to each value. -/
def ConfigSerde.read_config (parse : String → Option (List (String × JValue)))
    (fs : FsEnv) (config_path : String) : Option (List (String × JValue)) :=
  match fs.files config_path with
  | none => none
  | some config =>
    match parse config with
    | none => none
    | some parsed => some (parsed.map (fun kv => (kv.1, parse_value kv.2)))

/-- set_config_name: overwrite the stored filename. -/
def set_config_name (config_name : String) (s : ConfState) : ConfState :=
  { s with CONFIG_NAME := config_name }

/-- add_config_path (unix family): store the path, appending the
separator if it is missing. -/
def add_config_path (path : String) (s : ConfState) : ConfState :=
  if path.endsWith "/" then { s with CONFIG_PATH := path }
  else { s with CONFIG_PATH := path ++ "/" }

/-- init_lazy_configs: read and parse CONFIG_PATH ++ CONFIG_NAME; on
success insert every parsed pair into the shared map; on any error leave
it alone.  Returns the new contents of the shared map. -/
def init_lazy_configs (parse : String → Option (List (String × JValue)))
    (fs : FsEnv) (s : ConfState) : Table :=
  match ConfigSerde.read_config parse fs (s.CONFIG_PATH ++ s.CONFIG_NAME) with
  | some configs => configs.foldl (fun input kv => mapInsert input kv.1 kv.2) s.CONFIGS
  | none => s.CONFIGS

/-- Public read_config (unix family).  A none result models a panic:
env::current_exe().expect / .parent().unwrap() (exeParent = none) or
fs::read_dir(..).unwrap() (readDir = none), both of which run before the
direct-path check whenever a name is configured.  Otherwise: use
CONFIG_PATH ++ CONFIG_NAME when it is a regular file; else scan the
executable's directory for the first entry whose filename equals
CONFIG_NAME, and on a match overwrite CONFIG_PATH with that entry's
parent directory plus separator before loading; when neither strategy
finds the file, do nothing. -/
def read_config (parse : String → Option (List (String × JValue)))
    (fs : FsEnv) (s : ConfState) : Option ConfState :=
  if s.CONFIG_NAME = "" then some s
  else
    match fs.exeParent with
    | none => none
    | some exeDir =>
      match fs.readDir exeDir with
      | none => none
      | some paths =>
        if (fs.files (s.CONFIG_PATH ++ s.CONFIG_NAME)).isSome then
          some { s with CONFIGS := init_lazy_configs parse fs s }
        else
          match paths.find? (fun filename => filename == s.CONFIG_NAME) with
          | some _ =>
            let s1 : ConfState := { s with CONFIG_PATH := exeDir ++ "/" }
            some { s1 with CONFIGS := init_lazy_configs parse fs s1 }
          | none => some s

/-- get_string. -/
def get_string (configs : Table) (key : String) : Option String :=
  match mapGet configs key with
  | some value => value.as_str
  | none => none

/-- get_string_array: on an array, push exactly the string elements. -/
def get_string_array (configs : Table) (key : String) : Option (List String) :=
  match mapGet configs key with
  | some (JValue.arr arr) =>
    some (arr.foldl (fun string_array element =>
      match element with
      | JValue.str s => string_array ++ [s]
      | _ => string_array) [])
  | some _ => none
  | none => none

/-- get_int64. -/
def get_int64 (configs : Table) (key : String) : Option Int :=
  match mapGet configs key with
  | some (JValue.num n) => n.as_i64
  | some _ => none
  | none => none

/-- get_int64_array: on an array, push as_i64 of each numeric element
when it succeeds. -/
def get_int64_array (configs : Table) (key : String) : Option (List Int) :=
  match mapGet configs key with
  | some (JValue.arr arr) =>
    some (arr.foldl (fun int64_array element =>
      match element with
      | JValue.num n =>
        match n.as_i64 with
        | some int_value => int64_array ++ [int_value]
        | none => int64_array
      | _ => int64_array) [])
  | some _ => none
  | none => none

/-- get_i32: as_i64 then (as i32). -/
def get_i32 (configs : Table) (key : String) : Option Int :=
  match mapGet configs key with
  | some (JValue.num n) => (JNum.as_i64 n).map (fun m => wrapCast 32 m)
  | some _ => none
  | none => none

/-- get_i16: as_i64 then (as i16). -/
def get_i16 (configs : Table) (key : String) : Option Int :=
  match mapGet configs key with
  | some (JValue.num n) => (JNum.as_i64 n).map (fun m => wrapCast 16 m)
  | some _ => none
  | none => none

/-- get_int8: as_i64 then (as i8). -/
def get_int8 (configs : Table) (key : String) : Option Int :=
  match mapGet configs key with
  | some (JValue.num n) => (JNum.as_i64 n).map (fun m => wrapCast 8 m)
  | some _ => none
  | none => none

/-- get_float64. -/
def get_float64 (configs : Table) (key : String) : Option Rat :=
  match mapGet configs key with
  | some (JValue.num n) => n.as_f64
  | some _ => none
  | none => none

/-- get_float64_array: on an array, push as_f64 of each numeric element
(as_f64 never fails, so every numeric element is kept). -/
def get_float64_array (configs : Table) (key : String) : Option (List Rat) :=
  match mapGet configs key with
  | some (JValue.arr arr) =>
    some (arr.foldl (fun float64_array element =>
      match element with
      | JValue.num n =>
        match n.as_f64 with
        | some int_value => float64_array ++ [int_value]
        | none => float64_array
      | _ => float64_array) [])
  | some _ => none
  | none => none

/-- get_float32: as_f64 then (as f32).  The f64 → f32 IEEE conversion is
abstracted as the argument conv, since no stated property depends on the
converted value. -/
def get_float32 (conv : Rat → F32) (configs : Table) (key : String) : Option F32 :=
  match mapGet configs key with
  | some (JValue.num n) => (JNum.as_f64 n).map conv
  | some _ => none
  | none => none

/-- get_bool. -/
def get_bool (configs : Table) (key : String) : Option Bool :=
  match mapGet configs key with
  | some value => value.as_bool
  | none => none

/-- get: the raw cloned value. -/
def get (configs : Table) (key : String) : Option JValue :=
  mapGet configs key

/-- get_array: on an array, push exactly the elements that are objects. -/
def get_array (configs : Table) (key : String) : Option (List JValue) :=
  match mapGet configs key with
  | some (JValue.arr arr) =>
    some (arr.foldl (fun array element =>
      match element with
      | JValue.obj _ => array ++ [element]
      | _ => array) [])
  | some _ => none
  | none => none

/-- get_map. -/
def get_map (configs : Table) (key : String) : Option (List (String × JValue)) :=
  match mapGet configs key with
  | some map => map.as_object
  | none => none

/-- get at the level of the process state: lock CONFIGS, read, return.
No global is written, so the state component is returned unchanged. -/
def get_op (s : ConfState) (key : String) : Option JValue × ConfState :=
  (get s.CONFIGS key, s)

/-- get_string at the level of the process state. -/
def get_string_op (s : ConfState) (key : String) : Option String × ConfState :=
  (get_string s.CONFIGS key, s)

/-- get_string_array at the level of the process state. -/
def get_string_array_op (s : ConfState) (key : String) : Option (List String) × ConfState :=
  (get_string_array s.CONFIGS key, s)

/-- get_bool at the level of the process state. -/
def get_bool_op (s : ConfState) (key : String) : Option Bool × ConfState :=
  (get_bool s.CONFIGS key, s)

/-- get_int8 at the level of the process state. -/
def get_int8_op (s : ConfState) (key : String) : Option Int × ConfState :=
  (get_int8 s.CONFIGS key, s)

/-- get_i16 at the level of the process state. -/
def get_i16_op (s : ConfState) (key : String) : Option Int × ConfState :=
  (get_i16 s.CONFIGS key, s)

/-- get_i32 at the level of the process state. -/
def get_i32_op (s : ConfState) (key : String) : Option Int × ConfState :=
  (get_i32 s.CONFIGS key, s)

/-- get_int64 at the level of the process state. -/
def get_int64_op (s : ConfState) (key : String) : Option Int × ConfState :=
  (get_int64 s.CONFIGS key, s)

/-- get_int64_array at the level of the process state. -/
def get_int64_array_op (s : ConfState) (key : String) : Option (List Int) × ConfState :=
  (get_int64_array s.CONFIGS key, s)

/-- get_float32 at the level of the process state. -/
def get_float32_op (conv : Rat → F32) (s : ConfState) (key : String) : Option F32 × ConfState :=
  (get_float32 conv s.CONFIGS key, s)

/-- get_float64 at the level of the process state. -/
def get_float64_op (s : ConfState) (key : String) : Option Rat × ConfState :=
  (get_float64 s.CONFIGS key, s)

/-- get_float64_array at the level of the process state. -/
def get_float64_array_op (s : ConfState) (key : String) : Option (List Rat) × ConfState :=
  (get_float64_array s.CONFIGS key, s)

/-- get_array at the level of the process state. -/
def get_array_op (s : ConfState) (key : String) : Option (List JValue) × ConfState :=
  (get_array s.CONFIGS key, s)

/-- get_map at the level of the process state. -/
def get_map_op (s : ConfState) (key : String) : Option (List (String × JValue)) × ConfState :=
  (get_map s.CONFIGS key, s)

/-- Looking up the key just inserted yields the inserted value. -/
lemma mapGet_mapInsert_self (t : Table) (k : String) (v : JValue) :
    mapGet (mapInsert t k v) k = some v := by
  induction t with
  | nil => simp [mapInsert, mapGet]
  | cons kv rest ih =>
    by_cases h : kv.1 = k
    · simp [mapInsert, h, mapGet]
    · simp [mapInsert, h, mapGet, ih]

/-- Inserting one key does not disturb lookups of another. -/
lemma mapGet_mapInsert_ne (t : Table) (k k2 : String) (v : JValue) (h : k ≠ k2) :
    mapGet (mapInsert t k v) k2 = mapGet t k2 := by
  induction t with
  | nil => simp [mapInsert, mapGet, h]
  | cons kv rest ih =>
    by_cases hk : kv.1 = k
    · simp [mapInsert, hk, mapGet, h]
    · simp [mapInsert, hk, mapGet, ih]

/-- A key outside the key list of an association list is not found. -/
lemma mapGet_eq_none_of_not_mem (t : Table) (k : String)
    (h : k ∉ t.map Prod.fst) : mapGet t k = none := by
  induction t with
  | nil => rfl
  | cons kv rest ih =>
    simp only [List.map_cons, List.mem_cons] at h
    push_neg at h
    have hne : ¬ kv.1 = k := fun hh => h.1 hh.symm
    simp [mapGet, ih h.2, hne]

/-- Folding insert over a duplicate-free list of pairs realises
last-writer-wins merge: keys of the list take the list's value, all other
keys keep the value of the starting table. -/
lemma mapGet_foldl_insert (P : List (String × JValue)) (T : Table) (k : String)
    (hnd : (P.map Prod.fst).Nodup) :
    mapGet (P.foldl (fun input kv => mapInsert input kv.1 kv.2) T) k =
      match mapGet P k with
      | some v => some v
      | none => mapGet T k := by
  induction P generalizing T with
  | nil => simp [mapGet]
  | cons kv rest ih =>
    simp only [List.map_cons, List.nodup_cons] at hnd
    simp only [List.foldl_cons]
    rw [ih _ hnd.2]
    by_cases hk : kv.1 = k
    · subst hk
      rw [mapGet_eq_none_of_not_mem rest kv.1 hnd.1]
      simp [mapGet, mapGet_mapInsert_self]
    · cases hr : mapGet rest k with
      | some v => simp [mapGet, hk, hr]
      | none => simp [mapGet, hk, hr, mapGet_mapInsert_ne T kv.1 k kv.2 hk]

/-- Claim C2: on a successful load that parsed the top-level object P
over prior table T, the resulting table maps every key of P to the value
P gives it (overwriting any previous binding) and every other key to its
previous value in T; no previously present key is removed. -/
theorem load_merge_overwrites_and_preserves
    (parse : String → Option (List (String × JValue))) (fs : FsEnv) (s : ConfState)
    (P : List (String × JValue))
    (hP : ConfigSerde.read_config parse fs (s.CONFIG_PATH ++ s.CONFIG_NAME) = some P)
    (hnd : (P.map Prod.fst).Nodup) :
    (∀ k v, mapGet P k = some v → mapGet (init_lazy_configs parse fs s) k = some v) ∧
    (∀ k, mapGet P k = none → mapGet (init_lazy_configs parse fs s) k = mapGet s.CONFIGS k) := by
  unfold init_lazy_configs
  rw [hP]
  constructor
  · intro k v hv
    rw [mapGet_foldl_insert P s.CONFIGS k hnd, hv]
  · intro k hv
    rw [mapGet_foldl_insert P s.CONFIGS k hnd, hv]

/-- Claim C2 witness: loading an object that redefines key a and adds key
d over a table holding a and b keeps b, overwrites a, and adds d. -/
theorem load_merge_overwrites_and_preserves_witness :
    mapGet (init_lazy_configs
      (fun c => if c = "doc" then some [("a", JValue.str "y"), ("d", JValue.bool true)] else none)
      ⟨fun p => if p = "/etc/config.json" then some "doc" else none, some "/exe", fun _ => some []⟩
      ⟨"config.json", "/etc/", [("a", JValue.str "x"), ("b", JValue.num (JNum.posInt 43))]⟩)
      "a" = some (JValue.str "y") ∧
    mapGet (init_lazy_configs
      (fun c => if c = "doc" then some [("a", JValue.str "y"), ("d", JValue.bool true)] else none)
      ⟨fun p => if p = "/etc/config.json" then some "doc" else none, some "/exe", fun _ => some []⟩
      ⟨"config.json", "/etc/", [("a", JValue.str "x"), ("b", JValue.num (JNum.posInt 43))]⟩)
      "d" = some (JValue.bool true) ∧
    mapGet (init_lazy_configs
      (fun c => if c = "doc" then some [("a", JValue.str "y"), ("d", JValue.bool true)] else none)
      ⟨fun p => if p = "/etc/config.json" then some "doc" else none, some "/exe", fun _ => some []⟩
      ⟨"config.json", "/etc/", [("a", JValue.str "x"), ("b", JValue.num (JNum.posInt 43))]⟩)
      "b" = some (JValue.num (JNum.posInt 43)) := by
  have h := load_merge_overwrites_and_preserves
    (fun c => if c = "doc" then some [("a", JValue.str "y"), ("d", JValue.bool true)] else none)
    ⟨fun p => if p = "/etc/config.json" then some "doc" else none, some "/exe", fun _ => some []⟩
    ⟨"config.json", "/etc/", [("a", JValue.str "x"), ("b", JValue.num (JNum.posInt 43))]⟩
    [("a", JValue.str "y"), ("d", JValue.bool true)]
    rfl (by simp)
  refine ⟨h.1 "a" (JValue.str "y") rfl, h.1 "d" (JValue.bool true) rfl, ?_⟩
  rw [h.2 "b" rfl]
  rfl

/-- When parsing fails on every readable file, init_lazy_configs leaves
the shared map untouched. -/
lemma init_lazy_configs_unchanged (parse : String → Option (List (String × JValue)))
    (fs : FsEnv) (s : ConfState)
    (hparse : ∀ p c, fs.files p = some c → parse c = none) :
    init_lazy_configs parse fs s = s.CONFIGS := by
  cases hf : fs.files (s.CONFIG_PATH ++ s.CONFIG_NAME) with
  | none => simp [init_lazy_configs, ConfigSerde.read_config, hf]
  | some c => simp [init_lazy_configs, ConfigSerde.read_config, hf, hparse _ _ hf]

/-- Claim C3: when the file contents that resolution can reach fail to
parse (malformed JSON or non-object top level), read_config returns
normally and the table is exactly unchanged.  The executable-directory
enumeration is assumed to succeed, since the source unconditionally
unwraps it before looking at any file. -/
theorem parse_failure_leaves_table_unchanged
    (parse : String → Option (List (String × JValue))) (fs : FsEnv) (s : ConfState)
    (d : String) (es : List String)
    (hexe : fs.exeParent = some d) (hdir : fs.readDir d = some es)
    (hparse : ∀ p c, fs.files p = some c → parse c = none) :
    ∃ s2, read_config parse fs s = some s2 ∧ s2.CONFIGS = s.CONFIGS := by
  by_cases hn : s.CONFIG_NAME = ""
  · exact ⟨s, by simp [read_config, hn], rfl⟩
  · simp only [read_config, if_neg hn, hexe, hdir]
    cases hf : (fs.files (s.CONFIG_PATH ++ s.CONFIG_NAME)).isSome with
    | true =>
      simp only [hf, if_true]
      exact ⟨_, rfl, init_lazy_configs_unchanged parse fs s hparse⟩
    | false =>
      simp only [hf, Bool.false_eq_true, if_false]
      cases hfind : es.find? (fun filename => filename == s.CONFIG_NAME) with
      | some e =>
        refine ⟨_, rfl, ?_⟩
        exact init_lazy_configs_unchanged parse fs _ hparse
      | none => exact ⟨s, rfl, rfl⟩

/-- Claim C3 witness: a filesystem whose only file holds text the parser
rejects leads to a normal return with the table intact. -/
theorem parse_failure_leaves_table_unchanged_witness :
    ∃ s2, read_config (fun _ => none)
      ⟨fun p => if p = "/etc/config.json" then some "notjson" else none,
        some "/exe", fun _ => some []⟩
      ⟨"config.json", "/etc/", [("x", JValue.null)]⟩ = some s2 ∧
      s2.CONFIGS = [("x", JValue.null)] :=
  parse_failure_leaves_table_unchanged (fun _ => none)
    ⟨fun p => if p = "/etc/config.json" then some "notjson" else none,
      some "/exe", fun _ => some []⟩
    ⟨"config.json", "/etc/", [("x", JValue.null)]⟩
    "/exe" [] rfl rfl (fun _ _ _ => rfl)

/-- Claim C7: with no filename configured, read_config returns the state
unchanged, for every filesystem whatsoever (so no filesystem access can
influence the result), with no error. -/
theorem load_noop_without_filename
    (parse : String → Option (List (String × JValue))) (fs : FsEnv) (s : ConfState)
    (h : s.CONFIG_NAME = "") : read_config parse fs s = some s := by
  simp [read_config, h]

/-- Claim C7 witness: a fresh state with empty name is returned as-is even
over a filesystem where every access fails. -/
theorem load_noop_without_filename_witness :
    read_config (fun _ => none) ⟨fun _ => none, none, fun _ => none⟩
      ⟨"", "/etc/", []⟩ = some ⟨"", "/etc/", []⟩ :=
  load_noop_without_filename (fun _ => none) ⟨fun _ => none, none, fun _ => none⟩
    ⟨"", "/etc/", []⟩ rfl

/-- Claim C6 counterexample: with a filename configured and the direct
candidate file present and readable, the claim requires it to be used
directly; but when the executable's path is unavailable the source
panics first (current_exe().expect / parent().unwrap()), so load neither
uses the file nor returns silently. -/
theorem resolution_panics_without_exe_dir :
    read_config (fun _ => none)
      ⟨fun p => if p = "/etc/config.json" then some "x" else none, none, fun _ => some []⟩
      ⟨"config.json", "/etc/", []⟩ = none := rfl

/-- Claim C6 (amended): provided the executable's directory is available
and enumerable (otherwise load panics before consulting any candidate),
resolution is as claimed: a direct hit at CONFIG_PATH ++ CONFIG_NAME is
used with the stored search path; otherwise the first directory entry
named CONFIG_NAME makes its parent directory plus separator overwrite
CONFIG_PATH and the read uses the updated path; otherwise the state is
returned unchanged with no error. -/
theorem file_resolution_algorithm
    (parse : String → Option (List (String × JValue))) (fs : FsEnv) (s : ConfState)
    (d : String) (es : List String)
    (hname : s.CONFIG_NAME ≠ "") (hexe : fs.exeParent = some d)
    (hdir : fs.readDir d = some es) :
    ((fs.files (s.CONFIG_PATH ++ s.CONFIG_NAME)).isSome = true →
      read_config parse fs s = some { s with CONFIGS := init_lazy_configs parse fs s }) ∧
    (fs.files (s.CONFIG_PATH ++ s.CONFIG_NAME) = none →
      ∀ e, es.find? (fun filename => filename == s.CONFIG_NAME) = some e →
      read_config parse fs s = some { s with CONFIG_PATH := d ++ "/", CONFIGS := init_lazy_configs parse fs { s with CONFIG_PATH := d ++ "/" } }) ∧
    (fs.files (s.CONFIG_PATH ++ s.CONFIG_NAME) = none →
      es.find? (fun filename => filename == s.CONFIG_NAME) = none →
      read_config parse fs s = some s) := by
  refine ⟨?_, ?_, ?_⟩
  · intro hf
    simp [read_config, if_neg hname, hexe, hdir, hf]
  · intro hf e hfind
    simp [read_config, if_neg hname, hexe, hdir, hf, hfind]
  · intro hf hfind
    simp [read_config, if_neg hname, hexe, hdir, hf, hfind]

/-- Claim C6 witness: with the direct candidate missing and the
executable directory holding an entry with the configured name, the
search path is overwritten by that directory plus separator and the
parsed contents of the file found there are merged. -/
theorem file_resolution_algorithm_witness :
    read_config (fun c => if c = "doc" then some [("a", JValue.str "y")] else none)
      ⟨fun p => if p = "/exe/config.json" then some "doc" else none,
        some "/exe", fun p => if p = "/exe" then some ["other.txt", "config.json"] else none⟩
      ⟨"config.json", "/etc/", []⟩ =
      some ⟨"config.json", "/exe/", [("a", JValue.str "y")]⟩ := by
  have h := (file_resolution_algorithm
    (fun c => if c = "doc" then some [("a", JValue.str "y")] else none)
    ⟨fun p => if p = "/exe/config.json" then some "doc" else none,
      some "/exe", fun p => if p = "/exe" then some ["other.txt", "config.json"] else none⟩
    ⟨"config.json", "/etc/", []⟩ "/exe" ["other.txt", "config.json"]
    (by decide) rfl rfl).2.1 rfl "config.json" rfl
  rw [h]
  rfl

/-- Claim C8 counterexample: the claim says an unreadable directory
degrades to an absent result or an unchanged table; but even with the
configured file present and readable at the direct candidate path,
fs::read_dir(..).unwrap() on the executable's directory runs first and
panics when that enumeration fails, so load does not terminate
normally. -/
theorem read_config_panics_on_unreadable_dir :
    read_config (fun _ => none)
      ⟨fun p => if p = "/etc/config.json" then some "x" else none,
        some "/exe", fun _ => none⟩
      ⟨"config.json", "/etc/", []⟩ = none := rfl

/-- Claim C8 (amended): the setters and all accessors are total pure
functions of the state, and read_config terminates normally on every
input and filesystem state in which the running executable's parent
directory can be determined and enumerated; every remaining failure mode
(missing file, malformed JSON, type mismatch, narrowing) degrades to an
absent result or an unchanged table.  When that determination or
enumeration fails and a filename is configured, read_config panics. -/
theorem read_config_total_given_exe_dir
    (parse : String → Option (List (String × JValue))) (fs : FsEnv) (s : ConfState)
    (d : String) (es : List String)
    (hexe : fs.exeParent = some d) (hdir : fs.readDir d = some es) :
    (read_config parse fs s).isSome = true := by
  by_cases hn : s.CONFIG_NAME = ""
  · simp [read_config, hn]
  · simp only [read_config, if_neg hn, hexe, hdir]
    cases hf : (fs.files (s.CONFIG_PATH ++ s.CONFIG_NAME)).isSome with
    | true => simp [hf]
    | false =>
      simp only [hf, Bool.false_eq_true, if_false]
      cases hfind : es.find? (fun filename => filename == s.CONFIG_NAME) with
      | some e => rfl
      | none => rfl

/-- Claim C8 witness: a state with a configured name over a filesystem
with a determinable, enumerable executable directory loads without
panicking. -/
theorem read_config_total_given_exe_dir_witness :
    (read_config (fun _ => none) ⟨fun _ => none, some "/exe", fun _ => some []⟩
      ⟨"config.json", "/etc/", []⟩).isSome = true :=
  read_config_total_given_exe_dir (fun _ => none)
    ⟨fun _ => none, some "/exe", fun _ => some []⟩
    ⟨"config.json", "/etc/", []⟩ "/exe" [] rfl rfl

/-- Claim C9: every accessor is read-only: it leaves the table, the
configured filename and the search path exactly unchanged, for every
state, key, and (for get_float32) every float conversion. -/
theorem accessors_read_only (conv : Rat → F32) (s : ConfState) (k : String) :
    (get_op s k).2 = s ∧ (get_string_op s k).2 = s ∧ (get_string_array_op s k).2 = s ∧
    (get_bool_op s k).2 = s ∧ (get_int8_op s k).2 = s ∧ (get_i16_op s k).2 = s ∧
    (get_i32_op s k).2 = s ∧ (get_int64_op s k).2 = s ∧ (get_int64_array_op s k).2 = s ∧
    (get_float32_op conv s k).2 = s ∧ (get_float64_op s k).2 = s ∧
    (get_float64_array_op s k).2 = s ∧ (get_array_op s k).2 = s ∧ (get_map_op s k).2 = s :=
  ⟨rfl, rfl, rfl, rfl, rfl, rfl, rfl, rfl, rfl, rfl, rfl, rfl, rfl, rfl⟩

/-- Number::as_i64 characterised: on a well-formed payload it succeeds
with n exactly when the payload is integer-represented with mathematical
value n and n fits in a signed 64-bit integer. -/
lemma as_i64_char (j : JNum) (hw : WFnum j) (n : Int) :
    j.as_i64 = some n ↔ j.intVal = some n ∧ -(2 ^ 63) ≤ n ∧ n < 2 ^ 63 := by
  cases j with
  | posInt m =>
    have hm64 : m < 2 ^ 64 := hw
    by_cases hle : m ≤ 2 ^ 63 - 1
    · simp only [JNum.as_i64, if_pos hle, JNum.intVal, Option.some.injEq]
      constructor
      · rintro rfl
        exact ⟨rfl, by omega, by omega⟩
      · rintro ⟨rfl, h1, h2⟩
        rfl
    · simp only [JNum.as_i64, if_neg hle, JNum.intVal, Option.some.injEq]
      constructor
      · intro h
        exact (Option.some_ne_none n h.symm).elim
      · rintro ⟨rfl, h1, h2⟩
        exfalso
        omega
  | negInt m =>
    obtain ⟨h1, h2⟩ := hw
    simp only [JNum.as_i64, JNum.intVal, Option.some.injEq]
    constructor
    · rintro rfl
      exact ⟨rfl, by omega, by omega⟩
    · rintro ⟨rfl, _, _⟩
      rfl
  | float q =>
    simp [JNum.as_i64, JNum.intVal]

/-- Claim C1 counterexample: the claim requires the typed scalar
accessors to return absent on a stored value of any type other than the
requested one, with no coercion attempted; but on an integer-represented
number the source's get_float64 (via Number::as_f64) converts the
integer to floating point and returns it: requesting the integer 43 as a
float64 yields 43, not absent. -/
theorem get_float64_coerces_int :
    get_float64 [("k", JValue.num (JNum.posInt 43))] "k" = some 43 ∧
    get_float64 [("k", JValue.num (JNum.posInt 43))] "k" ≠ none := by
  constructor
  · decide
  · decide

/-- Claim C1 (amended): for a well-formed stored table, get_string,
get_bool and get_int64 return the stored value exactly when it is of the
requested type (for get_int64: integer-represented and within signed
64-bit range) and absent otherwise, with no coercion; get_float64,
however, returns a value for every stored JSON number, exactly the
stored float when the number is float-represented and an
integer-to-float conversion otherwise, and is absent exactly when the
key is missing or the value is not a number. -/
theorem typed_scalar_accessors_characterization (t : Table) (k : String)
    (hwf : ∀ j, mapGet t k = some (JValue.num j) → WFnum j) :
    (∀ x, get_string t k = some x ↔ mapGet t k = some (JValue.str x)) ∧
    (∀ b, get_bool t k = some b ↔ mapGet t k = some (JValue.bool b)) ∧
    (∀ n, get_int64 t k = some n ↔
      ∃ j, mapGet t k = some (JValue.num j) ∧ j.intVal = some n ∧ -(2 ^ 63) ≤ n ∧ n < 2 ^ 63) ∧
    ((get_float64 t k).isSome = true ↔ ∃ j, mapGet t k = some (JValue.num j)) ∧
    (∀ q, mapGet t k = some (JValue.num (JNum.float q)) → get_float64 t k = some q) := by
  refine ⟨?_, ?_, ?_, ?_, ?_⟩
  · intro x
    cases hm : mapGet t k with
    | none => simp [get_string, hm]
    | some v => cases v <;> simp [get_string, hm, JValue.as_str]
  · intro b
    cases hm : mapGet t k with
    | none => simp [get_bool, hm]
    | some v => cases v <;> simp [get_bool, hm, JValue.as_bool]
  · intro n
    cases hm : mapGet t k with
    | none => simp [get_int64, hm]
    | some v =>
      cases v with
      | num j =>
        have hc := as_i64_char j (hwf j hm) n
        simp [get_int64, hm, hc]
      | null => simp [get_int64, hm]
      | bool b => simp [get_int64, hm]
      | str s => simp [get_int64, hm]
      | arr xs => simp [get_int64, hm]
      | obj fields => simp [get_int64, hm]
  · cases hm : mapGet t k with
    | none => simp [get_float64, hm]
    | some v =>
      cases v with
      | num j => cases j <;> simp [get_float64, hm, JNum.as_f64]
      | null => simp [get_float64, hm]
      | bool b => simp [get_float64, hm]
      | str s => simp [get_float64, hm]
      | arr xs => simp [get_float64, hm]
      | obj fields => simp [get_float64, hm]
  · intro q hm
    simp [get_float64, hm, JNum.as_f64]

/-- Claim C1 (amended) witness: on a table holding a string at key a, a
negative integer at key b and a float at key c, each accessor behaves as
characterised. -/
theorem typed_scalar_accessors_characterization_witness :
    get_string [("a", JValue.str "x"), ("b", JValue.num (JNum.negInt (-5))), ("c", JValue.num (JNum.float (3 / 2)))] "a" = some "x" ∧
    get_int64 [("a", JValue.str "x"), ("b", JValue.num (JNum.negInt (-5))), ("c", JValue.num (JNum.float (3 / 2)))] "b" = some (-5) ∧
    get_float64 [("a", JValue.str "x"), ("b", JValue.num (JNum.negInt (-5))), ("c", JValue.num (JNum.float (3 / 2)))] "c" = some (3 / 2) ∧
    get_bool [("a", JValue.str "x"), ("b", JValue.num (JNum.negInt (-5))), ("c", JValue.num (JNum.float (3 / 2)))] "a" = none := by
  have hwfa : ∀ j, mapGet [("a", JValue.str "x"), ("b", JValue.num (JNum.negInt (-5))), ("c", JValue.num (JNum.float (3 / 2)))] "a" = some (JValue.num j) → WFnum j := by
    intro j h
    simp [mapGet] at h
  have hwfb : ∀ j, mapGet [("a", JValue.str "x"), ("b", JValue.num (JNum.negInt (-5))), ("c", JValue.num (JNum.float (3 / 2)))] "b" = some (JValue.num j) → WFnum j := by
    intro j h
    simp [mapGet] at h
    rw [← h]
    exact ⟨by decide, by decide⟩
  have hwfc : ∀ j, mapGet [("a", JValue.str "x"), ("b", JValue.num (JNum.negInt (-5))), ("c", JValue.num (JNum.float (3 / 2)))] "c" = some (JValue.num j) → WFnum j := by
    intro j h
    simp [mapGet] at h
    rw [← h]
    exact trivial
  have ha := typed_scalar_accessors_characterization _ "a" hwfa
  have hb := typed_scalar_accessors_characterization _ "b" hwfb
  have hc := typed_scalar_accessors_characterization _ "c" hwfc
  refine ⟨(ha.1 "x").mpr rfl, ?_, hc.2.2.2.2 (3 / 2) rfl, ?_⟩
  · exact (hb.2.2.1 (-5)).mpr ⟨JNum.negInt (-5), rfl, rfl, by decide, by decide⟩
  · cases hbool : get_bool [("a", JValue.str "x"), ("b", JValue.num (JNum.negInt (-5))), ("c", JValue.num (JNum.float (3 / 2)))] "a" with
    | none => rfl
    | some b =>
      have := (ha.2.1 b).mp hbool
      simp [mapGet] at this

/-- The Rust cast (n as i8) agrees with reducing n mod 2 ^ 8 and
reinterpreting the residue as signed. -/
lemma wrapCast_eight (n : Int) : wrapCast 8 n = reinterpSigned 8 (n % 2 ^ 8) := by
  simp only [wrapCast, reinterpSigned]
  norm_num
  split <;> omega

/-- The Rust cast (n as i16) agrees with reducing n mod 2 ^ 16 and
reinterpreting the residue as signed. -/
lemma wrapCast_sixteen (n : Int) : wrapCast 16 n = reinterpSigned 16 (n % 2 ^ 16) := by
  simp only [wrapCast, reinterpSigned]
  norm_num
  split <;> omega

/-- The Rust cast (n as i32) agrees with reducing n mod 2 ^ 32 and
reinterpreting the residue as signed. -/
lemma wrapCast_thirtytwo (n : Int) : wrapCast 32 n = reinterpSigned 32 (n % 2 ^ 32) := by
  simp only [wrapCast, reinterpSigned]
  norm_num
  split <;> omega

/-- Claim C4: for a stored well-formed JSON number that is
integer-represented with value n in signed 64-bit range, the narrower
integer accessors never return absent: they return n reduced mod 2 ^ w
and reinterpreted as a signed w-bit value (two's-complement wrap), for
w = 8, 16, 32. -/
theorem narrow_int_accessors_truncate (t : Table) (k : String) (j : JNum) (n : Int)
    (hm : mapGet t k = some (JValue.num j)) (hwf : WFnum j)
    (hv : j.intVal = some n) (h1 : -(2 ^ 63) ≤ n) (h2 : n < 2 ^ 63) :
    get_int8 t k = some (reinterpSigned 8 (n % 2 ^ 8)) ∧
    get_i16 t k = some (reinterpSigned 16 (n % 2 ^ 16)) ∧
    get_i32 t k = some (reinterpSigned 32 (n % 2 ^ 32)) := by
  have hi : j.as_i64 = some n := (as_i64_char j hwf n).mpr ⟨hv, h1, h2⟩
  refine ⟨?_, ?_, ?_⟩
  · simp [get_int8, hm, hi, wrapCast_eight]
  · simp [get_i16, hm, hi, wrapCast_sixteen]
  · simp [get_i32, hm, hi, wrapCast_thirtytwo]

/-- Claim C4 witness: the stored integer -200 is out of 8-bit range and
truncates to 56 (instead of being rejected), while it fits 16 and 32
bits where the wrap is the identity. -/
theorem narrow_int_accessors_truncate_witness :
    get_int8 [("k", JValue.num (JNum.negInt (-200)))] "k" = some (reinterpSigned 8 ((-200 : Int) % 2 ^ 8)) ∧
    get_i16 [("k", JValue.num (JNum.negInt (-200)))] "k" = some (reinterpSigned 16 ((-200 : Int) % 2 ^ 16)) ∧
    get_i32 [("k", JValue.num (JNum.negInt (-200)))] "k" = some (reinterpSigned 32 ((-200 : Int) % 2 ^ 32)) :=
  narrow_int_accessors_truncate [("k", JValue.num (JNum.negInt (-200)))] "k"
    (JNum.negInt (-200)) (-200) rfl ⟨by decide, by decide⟩ rfl (by decide) (by decide)

/-- The accumulator loop of get_string_array computes a filterMap of
the string payloads. -/
lemma foldl_push_strings (xs : List JValue) (acc : List String) :
    xs.foldl (fun string_array element =>
      match element with
      | JValue.str s => string_array ++ [s]
      | _ => string_array) acc = acc ++ xs.filterMap strElem := by
  induction xs generalizing acc with
  | nil => simp
  | cons x rest ih =>
    cases x <;> simp [List.foldl_cons, ih, strElem, List.filterMap_cons]

/-- Claim C5: get_string_array is absent when the key is missing or the
value is not an array; on an array it returns exactly the subsequence of
string elements, in their original order, dropping every non-string
element. -/
theorem get_string_array_filters_strings (t : Table) (k : String) :
    (mapGet t k = none → get_string_array t k = none) ∧
    (∀ v, mapGet t k = some v → (∀ xs, v ≠ JValue.arr xs) → get_string_array t k = none) ∧
    (∀ xs, mapGet t k = some (JValue.arr xs) →
      get_string_array t k = some (xs.filterMap strElem)) := by
  refine ⟨?_, ?_, ?_⟩
  · intro hm
    simp [get_string_array, hm]
  · intro v hm hne
    cases v with
    | arr xs => exact absurd rfl (hne xs)
    | null => simp [get_string_array, hm]
    | bool b => simp [get_string_array, hm]
    | num j => simp [get_string_array, hm]
    | str s => simp [get_string_array, hm]
    | obj fields => simp [get_string_array, hm]
  · intro xs hm
    simp [get_string_array, hm, foldl_push_strings]

/-- Claim C5 witness: the mixed array of the spec's example keeps only
its string elements, in order. -/
theorem get_string_array_filters_strings_witness :
    get_string_array [("c", JValue.arr [JValue.str "p", JValue.num (JNum.posInt 1), JValue.str "q"])] "c" = some ["p", "q"] := by
  have h := (get_string_array_filters_strings
    [("c", JValue.arr [JValue.str "p", JValue.num (JNum.posInt 1), JValue.str "q"])] "c").2.2
    [JValue.str "p", JValue.num (JNum.posInt 1), JValue.str "q"] rfl
  rw [h]
  rfl

/-- The accumulator loop of get_int64_array computes a filterMap of the
elements that convert through as_i64. -/
lemma foldl_push_i64 (xs : List JValue) (acc : List Int) :
    xs.foldl (fun int64_array element =>
      match element with
      | JValue.num n =>
        match n.as_i64 with
        | some int_value => int64_array ++ [int_value]
        | none => int64_array
      | _ => int64_array) acc = acc ++ xs.filterMap elemToI64 := by
  induction xs generalizing acc with
  | nil => simp
  | cons x rest ih =>
    cases x with
    | num n => cases hn : n.as_i64 <;> simp [List.foldl_cons, ih, elemToI64, hn, List.filterMap_cons]
    | null => simp [List.foldl_cons, ih, elemToI64]
    | bool b => simp [List.foldl_cons, ih, elemToI64]
    | str s => simp [List.foldl_cons, ih, elemToI64]
    | arr ys => simp [List.foldl_cons, ih, elemToI64]
    | obj fields => simp [List.foldl_cons, ih, elemToI64]

/-- Claim C10: a stored JSON number that is float-represented with a
fractional part makes every integer accessor return absent (truncation
applies only between integer widths, never float to integer), and
get_int64_array silently drops such an element from an array instead of
rounding it. -/
theorem float_values_not_coerced_to_int (t : Table) :
    (∀ k q, q.den ≠ 1 → mapGet t k = some (JValue.num (JNum.float q)) →
      get_int64 t k = none ∧ get_i32 t k = none ∧ get_i16 t k = none ∧ get_int8 t k = none) ∧
    (∀ k q pre suf, q.den ≠ 1 →
      mapGet t k = some (JValue.arr (pre ++ JValue.num (JNum.float q) :: suf)) →
      get_int64_array t k = some (pre.filterMap elemToI64 ++ suf.filterMap elemToI64)) := by
  constructor
  · intro k q hq hm
    refine ⟨?_, ?_, ?_, ?_⟩
    · simp [get_int64, hm, JNum.as_i64]
    · simp [get_i32, hm, JNum.as_i64]
    · simp [get_i16, hm, JNum.as_i64]
    · simp [get_int8, hm, JNum.as_i64]
  · intro k q pre suf hq hm
    simp only [get_int64_array, hm]
    rw [foldl_push_i64]
    simp [List.filterMap_append, List.filterMap_cons, elemToI64, JNum.as_i64]

/-- Claim C10 witness: the float 3/2 stored at a key gives absent on all
integer accessors, and inside an array it is dropped between the
integers 1 and 2. -/
theorem float_values_not_coerced_to_int_witness :
    get_int64 [("f", JValue.num (JNum.float (3 / 2))), ("m", JValue.arr [JValue.num (JNum.posInt 1), JValue.num (JNum.float (3 / 2)), JValue.num (JNum.posInt 2)])] "f" = none ∧
    get_int8 [("f", JValue.num (JNum.float (3 / 2))), ("m", JValue.arr [JValue.num (JNum.posInt 1), JValue.num (JNum.float (3 / 2)), JValue.num (JNum.posInt 2)])] "f" = none ∧
    get_int64_array [("f", JValue.num (JNum.float (3 / 2))), ("m", JValue.arr [JValue.num (JNum.posInt 1), JValue.num (JNum.float (3 / 2)), JValue.num (JNum.posInt 2)])] "m" = some [1, 2] := by
  have h := float_values_not_coerced_to_int
    [("f", JValue.num (JNum.float (3 / 2))), ("m", JValue.arr [JValue.num (JNum.posInt 1), JValue.num (JNum.float (3 / 2)), JValue.num (JNum.posInt 2)])]
  have h1 := h.1 "f" (3 / 2) (by norm_num) rfl
  have h2 := h.2 "m" (3 / 2) [JValue.num (JNum.posInt 1)] [JValue.num (JNum.posInt 2)] (by norm_num) rfl
  refine ⟨h1.1, h1.2.2.2, ?_⟩
  rw [h2]
  rfl

end Confmap
